import Mathlib

/-!
# GraphScore: verification of the scoring core

A shallow embedding of the GraphScore repository's core logic:

* `src/tree/graph_attributes.py` — the attribute-propagation engine
  (`add_max_attribute_values`): one depth-first pass over an arborescence that
  stamps, on every edge, the `own` / `propagated` / `cumulated` derived values.
* `src/metrics/mastora.py` — the Mastora scorer (`compute_mastora`,
  `compute_mastora_score`).
* `src/metrics/qanadli.py` — the Qanadli scorer (`compute_qanadli`,
  `get_arterie_type`, `get_subsegments_below`, `compute_qanadli_score`).

Modelling conventions:

* Python floats are modelled as `ℚ`.  Every float operation the code performs
  on obstruction degrees (`max`, `1 - (1-a)*(1-b)`, `d / 0.25` with `0.25` a
  power of two, truncation by `int(...)`, comparison against thresholds) is
  exact on binary floating point in the ranges involved, so `ℚ` is faithful.
* Python dictionary attribute reads `d.get(k, default)` are modelled with
  `Option` fields and `Option.getD`.
* Fallible code is modelled in `Option`: `none` means the Python code raises
  (`ZeroDivisionError` on `x / 0`, `TypeError` on `max` of a non-iterable,
  `ValueError` on `max([])`).
* The `networkx` digraph, as traversed by the scorers (`graph.successors`,
  `graph.edges[node, child]`), is modelled as a rooted ordered tree whose
  nodes carry the list of (edge-attribute, subtree) pairs for their children.
  `find_root` is implicit: the tree type is rooted by construction.
-/

/-- A nested edge-attribute snapshot, as stored in the `"successors"` edge
attribute (`src/metrics/qanadli.py`): a dict with optional `"level"` and
`"segments_below"` keys and a (possibly absent, here possibly empty) list of
further snapshots under `"successors"`. -/
inductive Snap : Type where
  | node (level? : Option Int) (segB? : Option Int) (succs : List Snap)

/-- The attributes of one edge of the annotated arterial tree, as read by the
scorers: `"level"` (`edge.get("level", 0)`), the obstruction value stored
under the configured `obstruction_attr` key (`edge_attrs.get(obstruction_attr,
0.0)`), `"segments_below"` and the nested `"successors"` snapshots. -/
structure Edge where
  level? : Option Int
  mto? : Option ℚ
  segB? : Option Int
  succs : List Snap

/-- The annotated arterial tree as the scorers traverse it: a root node with
an ordered list of (edge attributes, child subtree) pairs. -/
inductive ATree : Type where
  | node (children : List (Edge × ATree))

/-- The raw measurement stored under `input_attr` on an edge of the input
tree (`src/tree/graph_attributes.py`): either a scalar float or a collection
of per-slice obstruction fractions. -/
inductive Raw : Type where
  | scalar (q : ℚ)
  | coll (l : List ℚ)

/-- The raw input tree consumed by the propagation engine: each edge carries
an optional raw measurement (`new_graph.edges[node, child].get(input_attr,
[0.0])`). -/
inductive RTree : Type where
  | node (children : List (Option Raw × RTree))

/-- The triple of derived attributes `add_max_attribute_values` stamps on one
edge, together with the parent-accumulated state it combined with:
`own = max(raw)`, `prop = max(parent_prop, own)`,
`cum = 1 - (1-own) * (1-parent_cum)`. -/
structure AnnEdge where
  own : ℚ
  parentProp : ℚ
  prop : ℚ
  parentCum : ℚ
  cum : ℚ

/-- `own = edge.get(input_attr, [0.0]); own = max(own)`
(`src/tree/graph_attributes.py` lines 55-56).  A missing attribute defaults to
the singleton `[0.0]`, whose max is `0.0`.  Python's `max` raises `TypeError`
on a bare scalar and `ValueError` on an empty list: both are `none`. -/
def ownOf : Option Raw → Option ℚ
  | none => some 0
  | some (Raw.scalar _) => none
  | some (Raw.coll []) => none
  | some (Raw.coll (x :: xs)) => some (xs.foldl max x)

/-- `add_max_attribute_values` (`src/tree/graph_attributes.py`): the inner
`_dfs(node, parent_prop, parent_cum)` visiting the children of a node in
order.  For each edge it extracts `own` via `ownOf`, computes
`prop = max(parent_prop, own)` (`propagate_fn`) and
`cum = 1 - (1-own) * (1-parent_cum)` (`cumulate_fn`), stamps the edge, and
recurses into the child with the new accumulated pair.  The returned list
holds the stamped values in depth-first visiting order; `none` when the
traversal raises on some edge. -/
def add_max_attribute_values (pp pc : ℚ) : RTree → Option (List AnnEdge)
  | .node [] => some []
  | .node ((r, sub) :: rest) => do
      let own ← ownOf r
      let prop := max pp own
      let cum := 1 - (1 - own) * (1 - pc)
      let inner ← add_max_attribute_values prop cum sub
      let outer ← add_max_attribute_values pp pc (.node rest)
      some (⟨own, pp, prop, pc, cum⟩ :: inner ++ outer)

/-- All numbers appearing in one raw measurement attribute. -/
def rawVals : Option Raw → List ℚ
  | none => []
  | some (Raw.scalar q) => [q]
  | some (Raw.coll l) => l

/-- All numbers appearing in raw measurement attributes anywhere in the
input tree. -/
def treeRaws : RTree → List ℚ
  | .node [] => []
  | .node ((r, sub) :: rest) => rawVals r ++ (treeRaws sub ++ treeRaws (.node rest))

/-- `get_arterie_type` (`src/metrics/qanadli.py` lines 57-77): classify an
edge by `edge.get("level", 0)`; level 3 additionally inspects the recorded
successor levels, but both branches of that test return `"lobar"`. -/
def get_arterie_type (e : Edge) : String :=
  let level := e.level?.getD 0
  if level = 1 then "root"
  else if level = 2 then "mediastinal"
  else if level = 4 then "segmental"
  else if level = 3 then
    if e.succs.all (fun s => (match s with | .node l _ _ => l).getD 0 = 4) then "lobar"
    else "lobar"
  else ""

/-- The inner `_dfs` of `get_subsegments_below` (`src/metrics/qanadli.py`
lines 91-98), which accumulates the `subsegments_below` list: a snapshot with
`level ≤ 4` (default 0) contributes its own `segments_below` (default 0);
otherwise its successors are walked instead. -/
def subsegmentsList : Snap → List Int
  | .node lvl segB succs =>
    if lvl.getD 0 ≤ 4 then [segB.getD 0]
    else (succs.attach.map (fun s => subsegmentsList s.1)).flatten
decreasing_by
  have := List.sizeOf_lt_of_mem s.2
  simp_wf
  omega

/-- The graph edge's attribute dict viewed as a snapshot, as
`get_subsegments_below` starts its walk on the edge's own attributes. -/
def Edge.toSnap (e : Edge) : Snap := Snap.node e.level? e.segB? e.succs

/-- `get_subsegments_below(edge_attrs)` (`src/metrics/qanadli.py` lines
80-101): run the accumulating walk starting from the edge's own attribute
dict, then `sum(subsegments_below) if subsegments_below else 0`. -/
def get_subsegments_below (e : Edge) : Int :=
  let l := subsegmentsList e.toSnap
  if l = [] then 0 else l.sum

/-- Modelled from the spec (sentence for claim C2, spec §4.4 step 5), for
comparison with the source's `get_subsegments_below`: the contribution of one
nested successor snapshot — "any successor with `level ≤ 4` contributes its
own `segments_below` value to a running total; successors with `level > 4`
are expanded further (their own successors inspected) rather than counted
directly". -/
def specSuccContribution : Snap → Int
  | .node lvl segB succs =>
    if lvl.getD 0 ≤ 4 then segB.getD 0
    else (succs.attach.map (fun s => specSuccContribution s.1)).sum
decreasing_by
  have := List.sizeOf_lt_of_mem s.2
  simp_wf
  omega

/-- Modelled from the spec (sentence for claim C2): "recursively walk the
edge's nested successor attributes ... Sum all such contributions; if none
found, weight is 0."  The walk, per the spec's words, ranges over the edge's
successors. -/
def subsegments_below_spec (e : Edge) : Int :=
  (e.succs.map specSuccContribution).sum

/-- The bucketing of one collected degree in `compute_qanadli_score`
(`src/metrics/qanadli.py` lines 118-120):
`0 if degree < min else 1 if degree < max else 2`. -/
def qanadliBucket (minT maxT d : ℚ) : Int :=
  if d < minT then 0 else if d < maxT then 1 else 2

/-- `compute_qanadli_score` (`src/metrics/qanadli.py` lines 104-122): bucket
the degrees, multiply pointwise with the weights, and divide the sum by
`2 * sum(weights)`.  The division is unguarded in the source, so a zero
denominator is the Python `ZeroDivisionError`, modelled as `none`. -/
def compute_qanadli_score (weights : List Int) (degrees : List ℚ)
    (minT maxT : ℚ) : Option ℚ :=
  let bdegs := degrees.map (qanadliBucket minT maxT)
  let wd := (weights.zip bdegs).map (fun p => p.1 * p.2)
  let den : Int := 2 * weights.sum
  if den = 0 then none
  else some ((wd.sum : ℚ) / (den : ℚ))

/-- The inner `_dfs` of `compute_qanadli` (`src/metrics/qanadli.py` lines
32-51), returning the `(weight, degree)` pairs appended to the `weights` and
`degrees` accumulators, in traversal order: a mediastinal or lobar edge whose
degree exceeds `min_obstruction_thresh` is a terminal contribution weighted
by `get_subsegments_below`; below or at the threshold the traversal recurses
into the child instead; a segmental edge always contributes with weight 1; a
root edge only recurses; any other classification does nothing. -/
def qanadliContribs (minT : ℚ) : ATree → List (Int × ℚ)
  | .node [] => []
  | .node ((e, sub) :: rest) =>
      (let mto := e.mto?.getD 0
       let aty := get_arterie_type e
       if aty = "mediastinal" ∨ aty = "lobar" then
         if mto > minT then [(get_subsegments_below e, mto)]
         else qanadliContribs minT sub
       else if aty = "segmental" then [(1, mto)]
       else if aty = "root" then qanadliContribs minT sub
       else []) ++ qanadliContribs minT (.node rest)

/-- `compute_qanadli` (`src/metrics/qanadli.py` lines 8-54): collect the
contributions depth-first from the root, then
`compute_qanadli_score(weights, degrees, ...) if degrees else 0.0`. -/
def compute_qanadli (t : ATree) (minT maxT : ℚ) : Option ℚ :=
  let contribs := qanadliContribs minT t
  if contribs = [] then some 0
  else compute_qanadli_score (contribs.map Prod.fst) (contribs.map Prod.snd) minT maxT

/-- The `level_map` lookup of `compute_mastora` (`src/metrics/mastora.py`
lines 32-37): `levels = [lvl for key in mode for lvl in level_map.get(key,
[])]`.  A character outside `{m,l,s}` contributes no levels
(`dict.get(key, [])`). -/
def mastoraLevels (mode : List Char) : List Int :=
  (mode.map (fun c =>
    if c = 'm' then [1, 2] else if c = 'l' then [3]
    else if c = 's' then [4] else [])).flatten

/-- The inner `_dfs` of `compute_mastora` (`src/metrics/mastora.py` lines
42-59): traverse the whole tree; an edge whose `level` (default 0) is in the
included levels contributes its obstruction value (default 0.0); recursion
continues below every edge. -/
def mastoraDegrees (levels : List Int) : ATree → List ℚ
  | .node [] => []
  | .node ((e, sub) :: rest) =>
      ((if e.level?.getD 0 ∈ levels then [e.mto?.getD 0] else [])
        ++ mastoraDegrees levels sub)
      ++ mastoraDegrees levels (.node rest)

/-- Python `int(q)`: truncation toward zero. -/
def pyInt (q : ℚ) : Int := if 0 ≤ q then ⌊q⌋ else ⌈q⌉

/-- `compute_mastora_score` (`src/metrics/mastora.py` lines 70-87): when
`use_percentage` is false each degree is rescaled by
`int(float(degree) / 0.25) + 1`; the sum is divided by `n` (percentage) or
`n * 5` (rescaled).  An empty list is the Python `ZeroDivisionError`,
modelled as `none`. -/
def compute_mastora_score (degrees : List ℚ) (use_percentage : Bool) : Option ℚ :=
  let degs : List ℚ :=
    if use_percentage then degrees
    else degrees.map (fun d => ((pyInt (d / (1/4)) + 1 : Int) : ℚ))
  let n := degs.length
  if n = 0 then none
  else if use_percentage then some (degs.sum / (n : ℚ))
  else some (degs.sum / ((n : ℚ) * 5))

/-- `compute_mastora` (`src/metrics/mastora.py` lines 8-67), without the
debug side channel: collect the level-matched degrees depth-first, then
`compute_mastora_score(degrees, use_percentage) if degrees else 0.0`. -/
def compute_mastora (t : ATree) (use_percentage : Bool) (mode : List Char) :
    Option ℚ :=
  let degrees := mastoraDegrees (mastoraLevels mode) t
  if degrees = [] then some 0
  else compute_mastora_score degrees use_percentage

/-! ## Helper lemmas -/

theorem foldl_max_ge_mem (x : ℚ) (xs : List ℚ) :
    ∀ y ∈ x :: xs, y ≤ xs.foldl max x := by
  induction xs generalizing x with
  | nil => intro y hy; simp at hy; simp [hy]
  | cons z zs ih =>
    intro y hy
    rcases List.mem_cons.mp hy with hy | hy
    · subst hy
      calc y ≤ max y z := le_max_left y z
        _ ≤ zs.foldl max (max y z) := ih (max y z) _ (List.mem_cons_self _ _)
    rcases List.mem_cons.mp hy with hy | hy
    · subst hy
      calc y ≤ max x y := le_max_right x y
        _ ≤ zs.foldl max (max x y) := ih (max x y) _ (List.mem_cons_self _ _)
    · exact ih (max x z) y (List.mem_cons_of_mem _ hy)

theorem foldl_max_le (b x : ℚ) (xs : List ℚ) (hx : x ≤ b) (h : ∀ y ∈ xs, y ≤ b) :
    xs.foldl max x ≤ b := by
  induction xs generalizing x with
  | nil => simpa using hx
  | cons z zs ih =>
    exact ih (max x z) (max_le hx (h z (List.mem_cons_self _ _)))
      (fun y hy => h y (List.mem_cons_of_mem _ hy))

theorem foldl_max_mem (x : ℚ) (xs : List ℚ) : xs.foldl max x ∈ x :: xs := by
  induction xs generalizing x with
  | nil => simp
  | cons z zs ih =>
    have h := ih (max x z)
    rcases List.mem_cons.mp h with h | h
    · rcases max_choice x z with hm | hm <;> rw [List.foldl_cons, h, hm]
      · exact List.mem_cons_self _ _
      · exact List.mem_cons_of_mem _ (List.mem_cons_self _ _)
    · exact List.mem_cons_of_mem _ (List.mem_cons_of_mem _ h)

theorem ownOf_bounds {r : Option Raw} {own : ℚ} (h : ownOf r = some own)
    (hr : ∀ q ∈ rawVals r, 0 ≤ q ∧ q ≤ 1) : 0 ≤ own ∧ own ≤ 1 := by
  match r with
  | none =>
    simp only [ownOf, Option.some.injEq] at h
    subst h; norm_num
  | some (Raw.scalar _) => simp [ownOf] at h
  | some (Raw.coll []) => simp [ownOf] at h
  | some (Raw.coll (x :: xs)) =>
    simp only [ownOf, Option.some.injEq] at h
    subst h
    simp only [rawVals] at hr
    constructor
    · exact le_trans (hr x (List.mem_cons_self _ _)).1
        (foldl_max_ge_mem x xs x (List.mem_cons_self _ _))
    · exact foldl_max_le 1 x xs (hr x (List.mem_cons_self _ _)).2
        (fun y hy => (hr y (List.mem_cons_of_mem _ hy)).2)

theorem sum_ge_length_of_one_le (l : List ℚ) (h : ∀ x ∈ l, 1 ≤ x) :
    (l.length : ℚ) ≤ l.sum := by
  induction l with
  | nil => simp
  | cons x xs ih =>
    simp only [List.length_cons, List.sum_cons, Nat.cast_add, Nat.cast_one]
    have h1 := h x (List.mem_cons_self _ _)
    have h2 := ih (fun y hy => h y (List.mem_cons_of_mem _ hy))
    linarith

theorem sum_eq_length_of_eq_one (l : List ℚ) (h : ∀ x ∈ l, x = 1) :
    l.sum = (l.length : ℚ) := by
  induction l with
  | nil => simp
  | cons x xs ih =>
    simp only [List.length_cons, List.sum_cons, Nat.cast_add, Nat.cast_one]
    rw [h x (List.mem_cons_self _ _), ih (fun y hy => h y (List.mem_cons_of_mem _ hy))]
    ring

/-! ## Claim theorems -/

/-- Claim C6: a mediastinal or lobar edge whose obstruction degree equals
`min_obstruction_thresh` exactly is NOT treated as a terminal contribution
(the comparison `mto > min_obstruction_thresh` is strict); the traversal
recurses into that edge's child subtree instead. -/
theorem qanadli_threshold_boundary (e : Edge) (sub : ATree) (minT : ℚ)
    (hty : get_arterie_type e = "mediastinal" ∨ get_arterie_type e = "lobar")
    (hmto : e.mto?.getD 0 = minT) :
    qanadliContribs minT (ATree.node [(e, sub)]) = qanadliContribs minT sub := by
  rcases hty with h | h <;>
    simp [qanadliContribs, h, hmto]

/-- Witness for C6: a level-2 edge with degree exactly 0.25 at threshold
0.25 is passed over and its segmental child is scored instead. -/
theorem qanadli_threshold_boundary_witness :
    qanadliContribs (1/4)
        (ATree.node [(⟨some 2, some (1/4), some 7, []⟩,
          ATree.node [(⟨some 4, some (1/2), none, []⟩, ATree.node [])])])
      = qanadliContribs (1/4)
          (ATree.node [(⟨some 4, some (1/2), none, []⟩, ATree.node [])]) :=
  qanadli_threshold_boundary _ _ _ (Or.inl rfl) rfl

/-- Claim C10: an edge whose `level` attribute is missing (default 0) or not
in {1,2,3,4} is left unclassified by `get_arterie_type`; `compute_qanadli`
records no contribution for it and does not recurse below it, so its entire
subtree is excluded from the collected weights and degrees. -/
theorem qanadli_unclassified_subtree_pruned (e : Edge) (sub : ATree)
    (rest : List (Edge × ATree)) (minT : ℚ)
    (h : e.level?.getD 0 ∉ ([1, 2, 3, 4] : List Int)) :
    qanadliContribs minT (ATree.node ((e, sub) :: rest))
      = qanadliContribs minT (ATree.node rest) := by
  simp only [List.mem_cons, List.not_mem_nil, or_false, not_or] at h
  obtain ⟨h1, h2, h3, h4⟩ := h
  have hty : get_arterie_type e = "" := by
    unfold get_arterie_type
    simp [h1, h2, h3, h4]
  simp [qanadliContribs, hty]

/-- Witness for C10: an edge with no `level` attribute (level defaults to 0)
hides its whole subtree, including a segmental edge below it, from the
Qanadli traversal. -/
theorem qanadli_unclassified_subtree_pruned_witness :
    qanadliContribs (1/4)
        (ATree.node [(⟨none, some (9/10), some 5, []⟩,
          ATree.node [(⟨some 4, some (9/10), none, []⟩, ATree.node [])])])
      = qanadliContribs (1/4) (ATree.node []) :=
  qanadli_unclassified_subtree_pruned _ _ _ _ (by decide)

/-- Counterexample for C1 as stated: a mediastinal edge over threshold whose
`segments_below` is absent yields the contribution list `[(0, 1/2)]` — one
contribution, total weight 0 — and `compute_qanadli` then divides by
`2 * 0 = 0`: the Python code raises `ZeroDivisionError` (modelled `none`)
instead of defining the result as 0.0. -/
theorem qanadli_zero_weight_cex :
    qanadliContribs (1/4)
        (ATree.node [(⟨some 2, some (1/2), none, []⟩, ATree.node [])]) = [(0, 1/2)]
    ∧ compute_qanadli (ATree.node [(⟨some 2, some (1/2), none, []⟩, ATree.node [])])
        (1/4) (3/4) ≠ some 0 := by
  have hc : qanadliContribs (1/4)
      (ATree.node [(⟨some 2, some (1/2), none, []⟩, ATree.node [])]) = [(0, 1/2)] := by
    norm_num [qanadliContribs, get_arterie_type, get_subsegments_below,
      subsegmentsList, Edge.toSnap]
  refine ⟨hc, ?_⟩
  norm_num [compute_qanadli, hc, compute_qanadli_score]
  exact fun hcon => Option.noConfusion hcon

/-- Claim C1 (amended): the score computation is NOT guarded: whenever the
collected contribution list is non-empty but the collected weights sum to
zero, `compute_qanadli` performs the division anyway and the runtime
division-by-zero arithmetic fault propagates (no result), rather than the
result being defined as 0.0. -/
theorem qanadli_zero_weight_fault (t : ATree) (minT maxT : ℚ)
    (hne : qanadliContribs minT t ≠ [])
    (hw : ((qanadliContribs minT t).map Prod.fst).sum = 0) :
    compute_qanadli t minT maxT = none := by
  unfold compute_qanadli compute_qanadli_score
  simp [hne, hw]

/-- Witness for the amended C1 at the concrete over-threshold zero-weight
tree. -/
theorem qanadli_zero_weight_fault_witness :
    compute_qanadli (ATree.node [(⟨some 2, some (1/2), none, []⟩, ATree.node [])])
        (1/4) (3/4) = none :=
  qanadli_zero_weight_fault _ _ _
    (by norm_num [qanadliContribs, get_arterie_type, get_subsegments_below,
      subsegmentsList, Edge.toSnap])
    (by norm_num [qanadliContribs, get_arterie_type, get_subsegments_below,
      subsegmentsList, Edge.toSnap])

/-- Counterexample for C3 as stated: on the spec's scenario-1 tree —
root → mediastinal (level 2, degree 0.5, `segments_below` only on its
segmental descendant) → segmental (level 4, degree 0.5, segments_below 3) —
the mediastinal edge is terminal but its weight is read from its OWN
(absent) `segments_below`, giving weight 0, so the score is not 0.5: the
computation faults with division by zero (`none`). -/
theorem qanadli_scenario1_cex :
    compute_qanadli
        (ATree.node [(⟨some 2, some (1/2), none, [Snap.node (some 4) (some 3) []]⟩,
          ATree.node [(⟨some 4, some (1/2), some 3, []⟩, ATree.node [])])])
        (1/4) (3/4) = none
    ∧ compute_qanadli
        (ATree.node [(⟨some 2, some (1/2), none, [Snap.node (some 4) (some 3) []]⟩,
          ATree.node [(⟨some 4, some (1/2), some 3, []⟩, ATree.node [])])])
        (1/4) (3/4) ≠ some (1/2) := by
  have h : compute_qanadli
      (ATree.node [(⟨some 2, some (1/2), none, [Snap.node (some 4) (some 3) []]⟩,
        ATree.node [(⟨some 4, some (1/2), some 3, []⟩, ATree.node [])])])
      (1/4) (3/4) = none := by
    norm_num [compute_qanadli, qanadliContribs, get_arterie_type,
      get_subsegments_below, subsegmentsList, Edge.toSnap, compute_qanadli_score]
  exact ⟨h, by rw [h]; exact fun hc => Option.noConfusion hc⟩

/-- Claim C3 (amended): the scenario yields score 0.5 when `segments_below=3`
sits on the mediastinal edge ITSELF (the weight of a terminal mediastinal
contribution is the edge's own `segments_below`, not its descendant's): the
mediastinal edge (level 2, degree 0.5 > 0.25) is terminal with weight 3 and
bucket 1 (0.25 ≤ 0.5 < 0.75), and the score is 3×1/(2×3) = 0.5. -/
theorem qanadli_scenario1_amended :
    compute_qanadli
        (ATree.node [(⟨some 2, some (1/2), some 3, [Snap.node (some 4) (some 3) []]⟩,
          ATree.node [(⟨some 4, some (1/2), some 3, []⟩, ATree.node [])])])
        (1/4) (3/4) = some (1/2) := by
  norm_num [compute_qanadli, qanadliContribs, get_arterie_type,
    get_subsegments_below, subsegmentsList, Edge.toSnap, compute_qanadli_score,
    qanadliBucket]

/-- Counterexample for C2 as stated: on a mediastinal terminal edge (level 2,
own `segments_below` 5) with one nested level-4 successor snapshot carrying
`segments_below` 3, the spec's walk over the nested successors totals 3, but
the source's `get_subsegments_below` returns the edge's OWN value 5: the walk
stops at the edge itself because its level is already ≤ 4. -/
theorem qanadli_weight_walk_cex :
    get_subsegments_below ⟨some 2, some (1/2), some 5, [Snap.node (some 4) (some 3) []]⟩ = 5
    ∧ subsegments_below_spec ⟨some 2, some (1/2), some 5, [Snap.node (some 4) (some 3) []]⟩ = 3 := by
  constructor
  · norm_num [get_subsegments_below, subsegmentsList, Edge.toSnap]
  · norm_num [subsegments_below_spec, specSuccContribution]

/-- Claim C2 (amended): weight resolution starts the recursive walk at the
edge's OWN attribute snapshot, not at its successors: a snapshot with
`level ≤ 4` (missing level defaults to 0) contributes its own
`segments_below` (default 0) and its successors are never inspected; only a
snapshot with `level > 4` is expanded into its nested successors.  Hence for
a mediastinal or lobar terminal edge — whose level is 2 or 3, hence ≤ 4 —
the weight is the edge's own `segments_below` value, and 0 if absent. -/
theorem qanadli_weight_walk_amended (e : Edge) :
    get_subsegments_below e =
      if e.level?.getD 0 ≤ 4 then e.segB?.getD 0
      else (e.succs.map (fun s => (subsegmentsList s).sum)).sum := by
  have hif : ∀ l : List Int, (if l = [] then 0 else l.sum) = l.sum := by
    intro l
    split
    · rename_i h
      rw [h]
      rfl
    · rfl
  simp only [get_subsegments_below]
  rw [hif]
  rw [Edge.toSnap, subsegmentsList]
  by_cases hc : e.level?.getD 0 ≤ 4
  · simp [hc]
  · simp only [if_neg hc]
    have h1 : (e.succs.attach.map (fun s => subsegmentsList s.1))
        = e.succs.map subsegmentsList :=
      List.attach_map_coe _ _
    rw [h1, List.sum_flatten, List.map_map]
    rfl

/-- Counterexample for C8 as stated: passing a mode containing the invalid
character `x` to the Mastora scorer does not abort: the scorer returns a
normal result, identical to the result for the mode with the invalid
character removed, and an all-invalid mode simply yields score 0.0. -/
theorem mastora_invalid_mode_cex :
    compute_mastora (ATree.node [(⟨some 4, some (1/2), none, []⟩, ATree.node [])])
        false ['x', 's']
      = compute_mastora (ATree.node [(⟨some 4, some (1/2), none, []⟩, ATree.node [])])
          false ['s']
    ∧ compute_mastora (ATree.node [(⟨some 4, some (1/2), none, []⟩, ATree.node [])])
        false ['x', 's'] = some (3/5)
    ∧ compute_mastora (ATree.node [(⟨some 4, some (1/2), none, []⟩, ATree.node [])])
        false ['x'] = some 0 := by
  have h1 : mastoraLevels ['x', 's'] = [4] := rfl
  have h2 : mastoraLevels ['s'] = [4] := rfl
  have h3 : mastoraLevels ['x'] = [] := rfl
  refine ⟨?_, ?_, ?_⟩ <;>
    norm_num [compute_mastora, h1, h2, h3, mastoraDegrees, compute_mastora_score, pyInt]

/-- Claim C8 (amended): a mode character outside {m,l,s} is silently ignored
by the Mastora scorer — `level_map.get(key, [])` contributes no levels for
it, so the score is the same as for the mode with that character removed; no
ConfigurationError is raised (the scorer has no such failure path). -/
theorem mastora_invalid_mode_ignored (t : ATree) (pct : Bool) (m1 m2 : List Char)
    (c : Char) (hm : c ≠ 'm') (hl : c ≠ 'l') (hs : c ≠ 's') :
    compute_mastora t pct (m1 ++ c :: m2) = compute_mastora t pct (m1 ++ m2) := by
  have hlv : mastoraLevels (m1 ++ c :: m2) = mastoraLevels (m1 ++ m2) := by
    unfold mastoraLevels
    simp [hm, hl, hs]
  unfold compute_mastora
  rw [hlv]

/-- Witness for the amended C8: inserting `x` before mode `s` leaves the
score unchanged. -/
theorem mastora_invalid_mode_ignored_witness :
    compute_mastora (ATree.node [(⟨some 4, some (1/2), none, []⟩, ATree.node [])])
        false ([] ++ 'x' :: ['s'])
      = compute_mastora (ATree.node [(⟨some 4, some (1/2), none, []⟩, ATree.node [])])
          false ([] ++ ['s']) :=
  mastora_invalid_mode_ignored _ _ _ _ _ (by decide) (by decide) (by decide)

/-- Python truncation coincides with the floor on nonnegative arguments. -/
theorem pyInt_eq_floor (q : ℚ) (h : 0 ≤ q) : pyInt q = ⌊q⌋ := by
  unfold pyInt
  exact if_pos h

/-- The non-percentage Mastora score on a non-empty degree list, written out:
sum of the integer buckets over `count * 5`. -/
theorem compute_mastora_score_nonpct (degrees : List ℚ) (hne : degrees ≠ []) :
    compute_mastora_score degrees false
      = some ((degrees.map (fun x => ((pyInt (x / (1/4)) + 1 : Int) : ℚ))).sum
          / ((degrees.length : ℚ) * 5)) := by
  unfold compute_mastora_score
  simp [hne, List.length_eq_zero]

/-- Each non-percentage Mastora bucket of a nonnegative degree is at least 1. -/
theorem mastora_bucket_one_le (x : ℚ) (hx : 0 ≤ x) :
    (1 : ℚ) ≤ ((pyInt (x / (1/4)) + 1 : Int) : ℚ) := by
  rw [pyInt_eq_floor _ (by positivity)]
  have h : (0 : Int) ≤ ⌊x / (1/4)⌋ := Int.floor_nonneg.mpr (by positivity)
  have : (1 : Int) ≤ ⌊x / (1/4)⌋ + 1 := by omega
  exact_mod_cast this

/-- Claim C4: Mastora scale equivalence.  For a tree whose only level-matched
edge carries degree `d ∈ [0,1]`, `use_percentage=False` yields
`(⌊d/0.25⌋+1)/5` and `use_percentage=True` yields `d` exactly; in general the
non-percentage score is the sum of per-degree buckets `⌊d/0.25⌋+1` divided by
`count × 5` (for collected degrees in `[0,1]`). -/
theorem mastora_scale_equivalence (d : ℚ) (degrees : List ℚ)
    (hd0 : 0 ≤ d) (hd1 : d ≤ 1) (hne : degrees ≠ [])
    (hdeg : ∀ x ∈ degrees, 0 ≤ x ∧ x ≤ 1) :
    compute_mastora (ATree.node [(⟨some 4, some d, none, []⟩, ATree.node [])]) false ['s']
        = some (((⌊d / (1/4)⌋ + 1 : Int) : ℚ) / 5)
    ∧ compute_mastora (ATree.node [(⟨some 4, some d, none, []⟩, ATree.node [])]) true ['s']
        = some d
    ∧ compute_mastora_score degrees false
        = some ((degrees.map (fun x => ((⌊x / (1/4)⌋ + 1 : Int) : ℚ))).sum
            / ((degrees.length : ℚ) * 5)) := by
  have hlv : mastoraLevels ['s'] = [4] := rfl
  have hdegs : mastoraDegrees [4]
      (ATree.node [(⟨some 4, some d, none, []⟩, ATree.node [])]) = [d] := by
    simp [mastoraDegrees]
  have hmap : ∀ l : List ℚ, (∀ x ∈ l, 0 ≤ x) →
      l.map (fun x => ((pyInt (x / (1/4)) + 1 : Int) : ℚ))
        = l.map (fun x => ((⌊x / (1/4)⌋ + 1 : Int) : ℚ)) := by
    intro l hl
    refine List.map_congr_left ?_
    intro x hx
    have h0 := hl x hx
    rw [pyInt_eq_floor _ (by positivity)]
  refine ⟨?_, ?_, ?_⟩
  · unfold compute_mastora
    rw [hlv, hdegs, if_neg (by simp)]
    rw [compute_mastora_score_nonpct [d] (by simp)]
    rw [hmap [d] (by intro x hx; rw [List.mem_singleton] at hx; subst hx; exact hd0)]
    norm_num
  · unfold compute_mastora
    rw [hlv, hdegs, if_neg (by simp)]
    simp [compute_mastora_score]
  · rw [compute_mastora_score_nonpct degrees hne,
      hmap degrees (fun x hx => (hdeg x hx).1)]

/-- Witness for C4 at the concrete degree 0.5: the non-percentage score is
(⌊2⌋+1)/5 = 3/5, the percentage score is 0.5 itself. -/
theorem mastora_scale_equivalence_witness :
    compute_mastora (ATree.node [(⟨some 4, some (1/2 : ℚ), none, []⟩, ATree.node [])])
        false ['s']
        = some (((⌊(1/2 : ℚ) / (1/4)⌋ + 1 : Int) : ℚ) / 5)
    ∧ compute_mastora (ATree.node [(⟨some 4, some (1/2 : ℚ), none, []⟩, ATree.node [])])
        true ['s']
        = some (1/2)
    ∧ compute_mastora_score [(1/2 : ℚ)] false
        = some (([(1/2 : ℚ)].map (fun x => ((⌊x / (1/4)⌋ + 1 : Int) : ℚ))).sum
            / (([(1/2 : ℚ)].length : ℚ) * 5)) :=
  mastora_scale_equivalence (1/2) [1/2] (by norm_num) (by norm_num) (by simp)
    (by intro x hx; rw [List.mem_singleton] at hx; subst hx; constructor <;> norm_num)

/-- Lower-bound core for the non-percentage Mastora score: every bucket is at
least 1, so the score of a non-empty nonnegative degree list is at least
1/5. -/
theorem mastora_score_core_lb (l : List ℚ) (hne : l ≠ []) (hl : ∀ x ∈ l, 0 ≤ x) :
    ∃ s, compute_mastora_score l false = some s ∧ 1/5 ≤ s := by
  rw [compute_mastora_score_nonpct l hne]
  refine ⟨_, rfl, ?_⟩
  have hlen : (0:ℚ) < (l.length : ℚ) := by
    have h := List.length_pos.mpr hne
    exact_mod_cast h
  have hone : ∀ y ∈ l.map (fun x => ((pyInt (x / (1/4)) + 1 : Int) : ℚ)), 1 ≤ y := by
    intro y hy
    rw [List.mem_map] at hy
    obtain ⟨x, hx, hxy⟩ := hy
    subst hxy
    exact mastora_bucket_one_le x (hl x hx)
  have hsum := sum_ge_length_of_one_le _ hone
  rw [List.length_map] at hsum
  have h5 : (0:ℚ) < (l.length : ℚ) * 5 := by positivity
  rw [le_div_iff₀ h5]
  calc (1/5) * ((l.length : ℚ) * 5) = (l.length : ℚ) := by ring
    _ ≤ _ := hsum

/-- Claim C9: implicit lower bound of the non-percentage Mastora score: for a
non-empty collected-degree list in `[0,1]` the score is at least 1/5; an
all-zero non-empty list scores exactly 1/5 = 0.2; and a returned score of 0.0
can only come from an empty level-match (no collected degrees). -/
theorem mastora_nonpct_lower_bound (degrees : List ℚ) (t : ATree) (mode : List Char) :
    (degrees ≠ [] → (∀ x ∈ degrees, 0 ≤ x ∧ x ≤ 1) →
      ∃ s, compute_mastora_score degrees false = some s ∧ 1/5 ≤ s)
    ∧ (degrees ≠ [] → (∀ x ∈ degrees, x = 0) →
      compute_mastora_score degrees false = some (1/5))
    ∧ ((∀ x ∈ mastoraDegrees (mastoraLevels mode) t, 0 ≤ x ∧ x ≤ 1) →
      compute_mastora t false mode = some 0 →
      mastoraDegrees (mastoraLevels mode) t = []) := by
  refine ⟨fun hne hd => mastora_score_core_lb degrees hne (fun x hx => (hd x hx).1),
    ?_, ?_⟩
  · intro hne hz
    rw [compute_mastora_score_nonpct degrees hne]
    have hmap : degrees.map (fun x => ((pyInt (x / (1/4)) + 1 : Int) : ℚ))
        = degrees.map (fun _ => (1 : ℚ)) := by
      refine List.map_congr_left ?_
      intro x hx
      rw [hz x hx]
      norm_num [pyInt]
    rw [hmap]
    have hsum : (degrees.map (fun _ => (1 : ℚ))).sum = (degrees.length : ℚ) := by
      have h := sum_eq_length_of_eq_one (degrees.map (fun _ => (1 : ℚ)))
        (by intro x hx; rw [List.mem_map] at hx; obtain ⟨y, _, hy⟩ := hx; exact hy.symm)
      rw [List.length_map] at h
      exact h
    rw [hsum]
    have hlen : (0:ℚ) < (degrees.length : ℚ) := by
      have h := List.length_pos.mpr hne
      exact_mod_cast h
    congr 1
    field_simp
  · intro hb h0
    by_contra hne
    obtain ⟨s, hs, hls⟩ :=
      mastora_score_core_lb _ hne (fun x hx => (hb x hx).1)
    unfold compute_mastora at h0
    rw [if_neg hne, hs] at h0
    rw [Option.some.injEq] at h0
    rw [h0] at hls
    linarith

/-- Witness for C9: an all-zero single collected degree scores exactly 1/5 =
0.2, not 0.0. -/
theorem mastora_nonpct_lower_bound_witness :
    compute_mastora_score [(0 : ℚ)] false = some (1/5) :=
  (mastora_nonpct_lower_bound [(0 : ℚ)] (ATree.node []) ['s']).2.1
    (by simp)
    (by intro x hx; rw [List.mem_singleton] at hx; exact hx)

/-- Counterexample for C5 as stated: a bare scalar raw measurement is NOT
handled by the own-extraction: Python's `max(0.5)` raises `TypeError`
(modelled `none`, not the scalar itself), and the whole propagation pass
fails on a tree with such an edge. -/
theorem own_attribute_cex :
    ownOf (some (Raw.scalar (1/2))) = none
    ∧ ownOf (some (Raw.scalar (1/2))) ≠ some (1/2)
    ∧ add_max_attribute_values 0 0
        (RTree.node [(some (Raw.scalar (1/2)), RTree.node [])]) = none := by
  refine ⟨rfl, by simp [ownOf], ?_⟩
  simp [add_max_attribute_values, ownOf]

/-- Claim C5 (amended): the engine's own-degree extraction takes the maximum
of the raw measurement when it is a (non-empty) collection, and 0.0 without
failing when the raw measurement is missing; a scalar raw measurement (and an
empty collection) makes the extraction fail rather than being passed
through. -/
theorem own_attribute_derivation (x q : ℚ) (xs : List ℚ) :
    ownOf (some (Raw.coll (x :: xs))) = some (xs.foldl max x)
    ∧ (xs.foldl max x ∈ x :: xs ∧ ∀ y ∈ x :: xs, y ≤ xs.foldl max x)
    ∧ ownOf none = some 0
    ∧ ownOf (some (Raw.scalar q)) = none
    ∧ ownOf (some (Raw.coll [])) = none :=
  ⟨rfl, ⟨foldl_max_mem x xs, foldl_max_ge_mem x xs⟩, rfl, rfl, rfl⟩

/-- Invariant of the propagation pass, generalized over the accumulated
parent state: every stamped edge has its own degree in [0,1], its parent
cumulated value in [0,1], and a cumulated value in [0,1] that dominates both,
provided the incoming parent-cumulated seed is in [0,1] and every raw
measurement number in the tree is in [0,1]. -/
theorem add_max_cum_bounds_aux (pp pc : ℚ) (t : RTree) :
    0 ≤ pc → pc ≤ 1 → (∀ q ∈ treeRaws t, 0 ≤ q ∧ q ≤ 1) →
    ∀ l, add_max_attribute_values pp pc t = some l →
    ∀ a ∈ l, (0 ≤ a.own ∧ a.own ≤ 1) ∧ (0 ≤ a.parentCum ∧ a.parentCum ≤ 1)
      ∧ (0 ≤ a.cum ∧ a.cum ≤ 1) ∧ a.own ≤ a.cum ∧ a.parentCum ≤ a.cum := by
  induction pp, pc, t using add_max_attribute_values.induct with
  | case1 pp pc =>
    intro _ _ _ l h
    simp only [add_max_attribute_values, Option.some.injEq] at h
    subst h
    simp
  | case2 pp pc r sub rest ihSub ihRest =>
    intro hpc0 hpc1 hraw l h
    simp only [add_max_attribute_values, Option.bind_eq_bind, Option.bind_eq_some,
      Option.some.injEq] at h
    obtain ⟨own, hown, inner, hinner, outer, houter, hl⟩ := h
    subst hl
    have hrawsplit : ∀ q, q ∈ rawVals r ∨ q ∈ treeRaws sub ∨ q ∈ treeRaws (RTree.node rest) →
        0 ≤ q ∧ q ≤ 1 := by
      intro q hq
      apply hraw
      simp only [treeRaws, List.mem_append]
      tauto
    have hob := ownOf_bounds hown (fun q hq => hrawsplit q (Or.inl hq))
    have hcum0 : 0 ≤ 1 - (1 - own) * (1 - pc) := by nlinarith [hob.1, hob.2]
    have hcum1 : 1 - (1 - own) * (1 - pc) ≤ 1 := by nlinarith [hob.1, hob.2]
    have hcumo : own ≤ 1 - (1 - own) * (1 - pc) := by nlinarith [hob.1, hob.2]
    have hcump : pc ≤ 1 - (1 - own) * (1 - pc) := by nlinarith [hob.1, hob.2]
    intro a ha
    rcases List.mem_cons.mp ha with ha | ha
    · subst ha
      exact ⟨hob, ⟨hpc0, hpc1⟩, ⟨hcum0, hcum1⟩, hcumo, hcump⟩
    rcases List.mem_append.mp ha with ha | ha
    · exact ihSub own hcum0 hcum1
        (fun q hq => hrawsplit q (Or.inr (Or.inl hq))) inner hinner a ha
    · exact ihRest hpc0 hpc1
        (fun q hq => hrawsplit q (Or.inr (Or.inr hq))) outer houter a ha

/-- Claim C7: cumulation bounds.  For every edge stamped by the propagation
pass, given a root seed in [0,1] and all raw obstruction degrees in [0,1],
the cumulated attribute `1 - (1-own)*(1-parent_cumulated)` lies in [0,1] and
is never less than the edge's own degree nor less than the parent's cumulated
value. -/
theorem cumulation_bounds (t : RTree) (seed : ℚ) (l : List AnnEdge)
    (hseed : 0 ≤ seed ∧ seed ≤ 1)
    (hraw : ∀ q ∈ treeRaws t, 0 ≤ q ∧ q ≤ 1)
    (h : add_max_attribute_values seed seed t = some l) :
    ∀ a ∈ l, (0 ≤ a.cum ∧ a.cum ≤ 1) ∧ a.own ≤ a.cum ∧ a.parentCum ≤ a.cum :=
  fun a ha =>
    ((add_max_cum_bounds_aux seed seed t hseed.1 hseed.2 hraw l h a ha).2.2 :)

/-- Witness for C7: the single-edge tree with raw collection [1/2] and seed 0
annotates to own = prop = cum = 1/2, parent values 0, and the bounds hold for
that stamped edge. -/
theorem cumulation_bounds_witness :
    (0 ≤ (AnnEdge.mk (1/2) 0 (1/2) 0 (1/2)).cum
      ∧ (AnnEdge.mk (1/2) 0 (1/2) 0 (1/2)).cum ≤ 1)
    ∧ (AnnEdge.mk (1/2) 0 (1/2) 0 (1/2)).own ≤ (AnnEdge.mk (1/2) 0 (1/2) 0 (1/2)).cum
    ∧ (AnnEdge.mk (1/2) 0 (1/2) 0 (1/2)).parentCum
        ≤ (AnnEdge.mk (1/2) 0 (1/2) 0 (1/2)).cum :=
  cumulation_bounds (RTree.node [(some (Raw.coll [1/2]), RTree.node [])]) 0
    [AnnEdge.mk (1/2) 0 (1/2) 0 (1/2)]
    ⟨le_refl 0, by norm_num⟩
    (by
      intro q hq
      simp only [treeRaws, rawVals, List.mem_append, List.not_mem_nil, or_false,
        List.mem_singleton] at hq
      subst hq
      norm_num)
    (by
      simp only [add_max_attribute_values, ownOf, Option.bind_eq_bind, Option.some_bind,
        List.append_nil, Option.some.injEq, List.cons.injEq, and_true]
      norm_num)
    (AnnEdge.mk (1/2) 0 (1/2) 0 (1/2)) (List.mem_singleton.mpr rfl)
